import Mathlib

/-!  Verification of the sign-and-magnitude numeric core (SignedDecimal /
SignedInt).  The definitions below are a shallow embedding of the Rust
sources `signed_decimal.rs` and `signed_int.rs`.

Modelling conventions:
* `Uint256` magnitudes and `Decimal256` magnitudes (counted in atomic units,
  scale `10^18`) are represented as `Nat`.
* Operations of the underlying magnitude types that can panic (checked
  addition / multiplication overflow, division or remainder by zero) return
  `Option`: `none` models the panic.  Operations that cannot panic are plain
  functions.
* Parsing returns `PResult`: `.panicked` models a Rust panic, `.error`
  models returning `Err`, `.ok v` models `Ok(v)`.
-/

/-- One more than the largest representable `Uint256` magnitude. -/
def U256MOD : Nat := 2 ^ 256

/-- Scale factor of `Decimal256` (18 fractional digits): one unit is
`10^18` atomics. -/
def DECIMAL_FRACTIONAL : Nat := 10 ^ 18

/-- Checked `Uint256` / `Decimal256` addition on magnitudes: the source's
`+` panics (`none`) on overflow. -/
def uAdd (x y : Nat) : Option Nat :=
  if x + y < U256MOD then some (x + y) else none

/-- Checked `Uint256` multiplication: panics (`none`) on overflow. -/
def uMul (x y : Nat) : Option Nat :=
  if x * y < U256MOD then some (x * y) else none

/-- `Decimal256 * Decimal256` and `Uint256 * Decimal256` both compute
`x * y / 10^18` with a 512-bit intermediate, panicking (`none`) when the
floor result exceeds the 256-bit range (cosmwasm `multiply_ratio`). -/
def mulDiv18 (x y : Nat) : Option Nat :=
  if x * y / DECIMAL_FRACTIONAL < U256MOD then some (x * y / DECIMAL_FRACTIONAL)
  else none

/-- `Decimal256 / Decimal256`: `x * 10^18 / y` with a 512-bit intermediate;
panics (`none`) on a zero divisor or when the result exceeds the range. -/
def decDivFloor (x y : Nat) : Option Nat :=
  if y = 0 then none
  else if x * DECIMAL_FRACTIONAL / y < U256MOD then
    some (x * DECIMAL_FRACTIONAL / y)
  else none

/-- Total order comparison of two magnitudes (`Ord` on `Uint256` /
`Decimal256` atomics). -/
def ucmp (x y : Nat) : Ordering :=
  if x < y then .lt else if x = y then .eq else .gt

/-- `Decimal256 with a sign` (struct `SignedDecimal`): `value` is the
magnitude in atomic units, `is_positive` the sign flag. -/
structure SignedDecimal where
  value : Nat
  is_positive : Bool
deriving DecidableEq, Repr

/-- `Uint256 with a sign` (struct `SignedInt`). -/
structure SignedInt where
  value : Nat
  is_positive : Bool
deriving DecidableEq, Repr

/-- `SignedInt::nan()`: the distinguished NaN sentinel. -/
def SignedInt.nan : SignedInt := ⟨0, false⟩

/-- `SignedInt::is_nan`. -/
def SignedInt.is_nan (s : SignedInt) : Bool :=
  (s.value == 0) && !s.is_positive

/-- `SignedInt::value()`: asserts `is_positive` (panic = `none`) and returns
the magnitude. -/
def SignedInt.value? (s : SignedInt) : Option Nat :=
  if s.is_positive then some s.value else none

/-- `SignedDecimal::value()`: asserts `is_positive` (panic = `none`). -/
def SignedDecimal.value? (s : SignedDecimal) : Option Nat :=
  if s.is_positive then some s.value else none

/-- `impl Neg for SignedInt`. -/
def SignedInt.neg (a : SignedInt) : SignedInt :=
  if a.value = 0 then a else ⟨a.value, !a.is_positive⟩

/-- `impl Neg for SignedDecimal`. -/
def SignedDecimal.neg (a : SignedDecimal) : SignedDecimal :=
  if a.value = 0 then a else ⟨a.value, !a.is_positive⟩

/-- `impl Add for SignedInt` (magnitude addition is checked, hence
`Option`). -/
def SignedInt.add (a b : SignedInt) : Option SignedInt :=
  if a.is_positive = b.is_positive then
    (uAdd a.value b.value).map fun value => ⟨value, a.is_positive⟩
  else if a.value > b.value then
    some ⟨a.value - b.value, a.is_positive⟩
  else if a.value < b.value then
    some ⟨b.value - a.value, b.is_positive⟩
  else
    some ⟨0, true⟩

/-- `impl Add for SignedDecimal`. -/
def SignedDecimal.add (a b : SignedDecimal) : Option SignedDecimal :=
  if a.is_positive = b.is_positive then
    (uAdd a.value b.value).map fun value => ⟨value, a.is_positive⟩
  else if a.value > b.value then
    some ⟨a.value - b.value, a.is_positive⟩
  else if a.value < b.value then
    some ⟨b.value - a.value, b.is_positive⟩
  else
    some ⟨0, true⟩

/-- `impl Sub for SignedInt`: `self + Self { value: rhs.value, is_positive:
!rhs.is_positive }`. -/
def SignedInt.sub (a b : SignedInt) : Option SignedInt :=
  SignedInt.add a ⟨b.value, !b.is_positive⟩

/-- `impl Sub for SignedDecimal`. -/
def SignedDecimal.sub (a b : SignedDecimal) : Option SignedDecimal :=
  SignedDecimal.add a ⟨b.value, !b.is_positive⟩

/-- `impl Mul for SignedInt`. -/
def SignedInt.mul (a b : SignedInt) : Option SignedInt :=
  (uMul a.value b.value).map fun value =>
    ⟨value, (a.is_positive == b.is_positive) || (value == 0)⟩

/-- `impl Mul for SignedDecimal`. -/
def SignedDecimal.mul (a b : SignedDecimal) : Option SignedDecimal :=
  (mulDiv18 a.value b.value).map fun value =>
    ⟨value, (a.is_positive == b.is_positive) || (value == 0)⟩

/-- `impl Mul<Decimal256> for SignedInt`: `self.value * rhs` is the floor
product, and the sign is the signed operand's sign, collapsed to positive
on a zero result. -/
def SignedInt.mulDecimal (a : SignedInt) (rhs : Nat) : Option SignedInt :=
  (mulDiv18 a.value rhs).map fun value =>
    ⟨value, a.is_positive || (value == 0)⟩

/-- `impl Mul<SignedDecimal> for Uint256` (yields a `SignedInt`): magnitude
`rhs.value * self` (floor product), sign copied from `rhs` with no zero
normalization. -/
def mulUint256SignedDecimal (u : Nat) (rhs : SignedDecimal) : Option SignedInt :=
  (mulDiv18 rhs.value u).map fun value => ⟨value, rhs.is_positive⟩

/-- `impl Mul<Decimal256> for SignedDecimal`: `self.value *= rhs; self` —
the sign flag is returned unchanged. -/
def SignedDecimal.mulDecimal (a : SignedDecimal) (rhs : Nat) : Option SignedDecimal :=
  (mulDiv18 a.value rhs).map fun value => ⟨value, a.is_positive⟩

/-- `impl Div for SignedInt`: a zero-magnitude divisor gives a zero
magnitude; `Uint256` division with a nonzero divisor cannot panic. -/
def SignedInt.div (a b : SignedInt) : SignedInt :=
  let value := if b.value = 0 then b.value else a.value / b.value
  ⟨value, (a.is_positive == b.is_positive) || (value == 0)⟩

/-- `impl Div for SignedDecimal`: a zero-magnitude divisor gives
`Decimal256::zero()`; otherwise `Decimal256` division (which can panic on
range overflow, hence `Option`). -/
def SignedDecimal.div (a b : SignedDecimal) : Option SignedDecimal :=
  (if b.value = 0 then some 0 else decDivFloor a.value b.value).map
    fun value => ⟨value, (a.is_positive == b.is_positive) || (value == 0)⟩

/-- `impl Rem for SignedInt` is `todo!()`: it panics for every input. -/
def SignedInt.rem (_a _b : SignedInt) : Option SignedInt := none

/-- `impl Rem for SignedDecimal`:
`Decimal256::new(self.value.atomics().rem(rhs.value.atomics())).into()` —
`Uint256` remainder panics (`none`) on a zero divisor, and the
`From<Decimal256>` conversion fixes the sign to positive. -/
def SignedDecimal.rem (a b : SignedDecimal) : Option SignedDecimal :=
  if b.value = 0 then none else some ⟨a.value % b.value, true⟩

/-- `impl PartialEq for SignedInt`: exact structural comparison. -/
def SignedInt.beq (a b : SignedInt) : Bool :=
  (a.value == b.value) && (a.is_positive == b.is_positive)

/-- `impl PartialEq for SignedDecimal`: all zero-magnitude values are
equal regardless of the sign flag. -/
def SignedDecimal.beq (a b : SignedDecimal) : Bool :=
  if a.value == 0 then b.value == 0
  else (a.value == b.value) && (a.is_positive == b.is_positive)

/-- `impl PartialOrd for SignedInt` (always `Some`, since the magnitude
order is total). -/
def SignedInt.pcmp (a b : SignedInt) : Option Ordering :=
  if a.is_positive = b.is_positive then
    if a.is_positive then some (ucmp a.value b.value)
    else some (ucmp b.value a.value)
  else if a.is_positive then some .gt
  else some .lt

/-- `impl PartialOrd for SignedDecimal`. -/
def SignedDecimal.pcmp (a b : SignedDecimal) : Option Ordering :=
  if a.is_positive = b.is_positive then
    if a.is_positive then some (ucmp a.value b.value)
    else some (ucmp b.value a.value)
  else if a.is_positive then some .gt
  else some .lt

/-- The canonical-zero invariant for `SignedInt`: a zero magnitude carries
a positive sign flag. -/
def siInv (s : SignedInt) : Prop := s.value = 0 → s.is_positive = true

/-- The canonical-zero invariant for `SignedDecimal`. -/
def sdInv (s : SignedDecimal) : Prop := s.value = 0 → s.is_positive = true

instance (s : SignedInt) : Decidable (siInv s) := by
  unfold siInv; infer_instance

instance (s : SignedDecimal) : Decidable (sdInv s) := by
  unfold sdInv; infer_instance

theorem add_inv_si (a b : SignedInt) (ha : siInv a) (hb : siInv b) :
    ∀ r, SignedInt.add a b = some r → siInv r := by
  rcases a with ⟨av, ap⟩
  rcases b with ⟨bv, bp⟩
  intro r h
  simp only [SignedInt.add, uAdd] at h
  split at h
  · split at h
    · simp only [Option.map_some'] at h
      cases h
      intro h0
      simp only at h0
      have hz : av = 0 := by omega
      exact ha hz
    · simp at h
  · split at h
    · cases h
      intro h0
      simp only at h0
      omega
    · split at h
      · cases h
        intro h0
        simp only at h0
        omega
      · cases h
        intro _
        rfl

theorem add_inv_sd (a b : SignedDecimal) (ha : sdInv a) (hb : sdInv b) :
    ∀ r, SignedDecimal.add a b = some r → sdInv r := by
  rcases a with ⟨av, ap⟩
  rcases b with ⟨bv, bp⟩
  intro r h
  simp only [SignedDecimal.add, uAdd] at h
  split at h
  · split at h
    · simp only [Option.map_some'] at h
      cases h
      intro h0
      simp only at h0
      have hz : av = 0 := by omega
      exact ha hz
    · simp at h
  · split at h
    · cases h
      intro h0
      simp only at h0
      omega
    · split at h
      · cases h
        intro h0
        simp only at h0
        omega
      · cases h
        intro _
        rfl

theorem sub_inv_si (a b : SignedInt) (ha : siInv a) (hb : siInv b) :
    ∀ r, SignedInt.sub a b = some r → siInv r := by
  intro r h
  unfold SignedInt.sub at h
  by_cases hbz : b.value = 0
  · rcases a with ⟨av, ap⟩
    rcases b with ⟨bv, bp⟩
    simp only at hbz
    subst hbz
    have hbp : bp = true := hb rfl
    subst hbp
    simp only [SignedInt.add, uAdd] at h
    split at h
    · split at h
      · simp only [Option.map_some'] at h
        cases h
        intro h0
        simp only at h0
        have hz : av = 0 := by omega
        exact ha hz
      · simp at h
    · split at h
      · cases h
        intro h0
        simp only at h0
        omega
      · split at h
        · cases h
          intro h0
          simp only at h0
          omega
        · cases h
          intro _
          rfl
  · exact add_inv_si a ⟨b.value, !b.is_positive⟩ ha (fun hz => absurd hz hbz) r h

theorem sub_inv_sd (a b : SignedDecimal) (ha : sdInv a) (hb : sdInv b) :
    ∀ r, SignedDecimal.sub a b = some r → sdInv r := by
  intro r h
  unfold SignedDecimal.sub at h
  by_cases hbz : b.value = 0
  · rcases a with ⟨av, ap⟩
    rcases b with ⟨bv, bp⟩
    simp only at hbz
    subst hbz
    have hbp : bp = true := hb rfl
    subst hbp
    simp only [SignedDecimal.add, uAdd] at h
    split at h
    · split at h
      · simp only [Option.map_some'] at h
        cases h
        intro h0
        simp only at h0
        have hz : av = 0 := by omega
        exact ha hz
      · simp at h
    · split at h
      · cases h
        intro h0
        simp only at h0
        omega
      · split at h
        · cases h
          intro h0
          simp only at h0
          omega
        · cases h
          intro _
          rfl
  · exact add_inv_sd a ⟨b.value, !b.is_positive⟩ ha (fun hz => absurd hz hbz) r h

theorem neg_inv_si (a : SignedInt) (ha : siInv a) : siInv (SignedInt.neg a) := by
  unfold SignedInt.neg
  split
  · exact ha
  · intro h0
    simp only at h0
    omega

theorem neg_inv_sd (a : SignedDecimal) (ha : sdInv a) : sdInv (SignedDecimal.neg a) := by
  unfold SignedDecimal.neg
  split
  · exact ha
  · intro h0
    simp only at h0
    omega

theorem mul_inv_si (a b : SignedInt) : ∀ r, SignedInt.mul a b = some r → siInv r := by
  intro r h
  simp only [SignedInt.mul, uMul] at h
  split at h
  · simp only [Option.map_some'] at h
    cases h
    intro h0
    simp only at h0
    simp [h0]
  · simp at h

theorem mul_inv_sd (a b : SignedDecimal) : ∀ r, SignedDecimal.mul a b = some r → sdInv r := by
  intro r h
  simp only [SignedDecimal.mul, mulDiv18] at h
  split at h
  · simp only [Option.map_some'] at h
    cases h
    intro h0
    simp only at h0
    simp [h0]
  · simp at h

theorem div_inv_si (a b : SignedInt) : siInv (SignedInt.div a b) := by
  intro h0
  simp only [SignedInt.div] at h0 ⊢
  simp [h0]

theorem div_inv_sd (a b : SignedDecimal) : ∀ r, SignedDecimal.div a b = some r → sdInv r := by
  intro r h
  simp only [SignedDecimal.div] at h
  rw [Option.map_eq_some'] at h
  obtain ⟨v, _, hr⟩ := h
  subst hr
  intro h0
  simp only at h0
  simp [h0]

theorem mulDecimal_inv_si (a : SignedInt) (q : Nat) :
    ∀ r, SignedInt.mulDecimal a q = some r → siInv r := by
  intro r h
  simp only [SignedInt.mulDecimal] at h
  rw [Option.map_eq_some'] at h
  obtain ⟨v, _, hr⟩ := h
  subst hr
  intro h0
  simp only at h0
  simp [h0]

/-- C1: the claim that every arithmetic operator (including the mixed
multiplications) returns a canonical zero is refuted at a concrete input:
`SignedDecimal(-1.0) * Decimal256(0)` returns a zero magnitude with
`is_positive = false`. -/
theorem C1_counterexample :
    SignedDecimal.mulDecimal ⟨DECIMAL_FRACTIONAL, false⟩ 0 = some ⟨0, false⟩ ∧
    ¬ sdInv ⟨0, false⟩ := by
  constructor
  · decide
  · decide

/-- C1 (amended): addition, subtraction and negation of both types preserve
the canonical-zero invariant whenever their inputs satisfy it, and the
homogeneous multiplication, division and `SignedInt * Decimal256` establish
it unconditionally; the mixed multiplications `Uint256 * SignedDecimal` and
`SignedDecimal * Decimal256` are excluded, since they return zero-magnitude
results with a negative flag. -/
theorem C1_amended :
    (∀ a b : SignedInt, siInv a → siInv b → ∀ r, SignedInt.add a b = some r → siInv r) ∧
    (∀ a b : SignedInt, siInv a → siInv b → ∀ r, SignedInt.sub a b = some r → siInv r) ∧
    (∀ a : SignedInt, siInv a → siInv (SignedInt.neg a)) ∧
    (∀ a b : SignedInt, ∀ r, SignedInt.mul a b = some r → siInv r) ∧
    (∀ a b : SignedInt, siInv (SignedInt.div a b)) ∧
    (∀ (a : SignedInt) (q : Nat), ∀ r, SignedInt.mulDecimal a q = some r → siInv r) ∧
    (∀ a b : SignedDecimal, sdInv a → sdInv b → ∀ r, SignedDecimal.add a b = some r → sdInv r) ∧
    (∀ a b : SignedDecimal, sdInv a → sdInv b → ∀ r, SignedDecimal.sub a b = some r → sdInv r) ∧
    (∀ a : SignedDecimal, sdInv a → sdInv (SignedDecimal.neg a)) ∧
    (∀ a b : SignedDecimal, ∀ r, SignedDecimal.mul a b = some r → sdInv r) ∧
    (∀ a b : SignedDecimal, ∀ r, SignedDecimal.div a b = some r → sdInv r) :=
  ⟨add_inv_si, sub_inv_si, neg_inv_si, mul_inv_si, div_inv_si, mulDecimal_inv_si,
   add_inv_sd, sub_inv_sd, neg_inv_sd, mul_inv_sd, div_inv_sd⟩

/-- C1 (witness): the amended invariant-preservation theorem applied at
concrete inputs. -/
theorem C1_amended_w :
    siInv (⟨2, true⟩ : SignedInt) ∧ sdInv (⟨0, true⟩ : SignedDecimal) := by
  obtain ⟨h1, h2, h3, h4, h5, h6, h7, h8, h9, h10, h11⟩ := C1_amended
  refine ⟨h1 ⟨5, true⟩ ⟨3, false⟩ ?_ ?_ ⟨2, true⟩ ?_, h8 ⟨4, true⟩ ⟨4, true⟩ ?_ ?_ ⟨0, true⟩ ?_⟩
  · decide
  · decide
  · decide
  · decide
  · decide
  · decide

/-- C3: the claim fails for `Uint256 * SignedDecimal`: at the concrete
input `0u * SignedDecimal(-1.0)` the result has zero magnitude yet keeps
`is_positive = false` (that value is the `SignedInt` NaN sentinel), where
the claim demands a positive sign on zero magnitude. -/
theorem C3_counterexample :
    mulUint256SignedDecimal 0 ⟨DECIMAL_FRACTIONAL, false⟩ = some ⟨0, false⟩ ∧
    ¬ siInv ⟨0, false⟩ := by
  constructor
  · decide
  · decide

/-- C3 (amended): both cross-type multiplications multiply the magnitudes
with the underlying floor product `x * y / 10^18`; `SignedInt * Decimal256`
propagates the signed operand's sign collapsing to positive on a zero
result, but `Uint256 * SignedDecimal` copies the `SignedDecimal` operand's
sign unconditionally, with no zero-magnitude normalization. -/
theorem C3_amended :
    (∀ (u : Nat) (d : SignedDecimal) (r : SignedInt),
        mulUint256SignedDecimal u d = some r →
        r.value = d.value * u / DECIMAL_FRACTIONAL ∧ r.is_positive = d.is_positive) ∧
    (∀ (a : SignedInt) (q : Nat) (r : SignedInt),
        SignedInt.mulDecimal a q = some r →
        r.value = a.value * q / DECIMAL_FRACTIONAL ∧
        (r.is_positive = true ↔ (a.is_positive = true ∨ r.value = 0))) := by
  constructor
  · intro u d r h
    simp only [mulUint256SignedDecimal, mulDiv18] at h
    split at h
    · simp only [Option.map_some'] at h
      cases h
      exact ⟨rfl, rfl⟩
    · simp at h
  · intro a q r h
    simp only [SignedInt.mulDecimal, mulDiv18] at h
    split at h
    · simp only [Option.map_some'] at h
      cases h
      refine ⟨rfl, ?_⟩
      simp [Bool.or_eq_true, beq_iff_eq]
    · simp at h

/-- C3 (witness): the amended cross-multiplication theorem applied at the
concrete inputs `3u * SignedDecimal(-2.0)` and
`SignedInt(-4) * Decimal256(2.0)`. -/
theorem C3_amended_w :
    ((⟨6, false⟩ : SignedInt).value
        = (⟨2 * DECIMAL_FRACTIONAL, false⟩ : SignedDecimal).value * 3 / DECIMAL_FRACTIONAL ∧
      (⟨6, false⟩ : SignedInt).is_positive
        = (⟨2 * DECIMAL_FRACTIONAL, false⟩ : SignedDecimal).is_positive) ∧
    ((⟨8, false⟩ : SignedInt).value
        = (⟨4, false⟩ : SignedInt).value * (2 * DECIMAL_FRACTIONAL) / DECIMAL_FRACTIONAL ∧
      ((⟨8, false⟩ : SignedInt).is_positive = true ↔
        ((⟨4, false⟩ : SignedInt).is_positive = true ∨ (⟨8, false⟩ : SignedInt).value = 0))) := by
  refine ⟨C3_amended.1 3 ⟨2 * DECIMAL_FRACTIONAL, false⟩ ⟨6, false⟩ ?_,
          C3_amended.2 ⟨4, false⟩ (2 * DECIMAL_FRACTIONAL) ⟨8, false⟩ ?_⟩
  · decide
  · decide

/-- C4: evaluation of the remainder operators at the failing inputs: the
`SignedInt` remainder (`todo!()`) panics for every pair of operands, and the
`SignedDecimal` remainder panics on a zero-magnitude divisor (`Uint256`
remainder by zero), contradicting the claim that `a % b` returns a value
for every pair of operands. -/
theorem C4_rem_evaluation :
    (∀ a b : SignedInt, SignedInt.rem a b = none) ∧
    SignedDecimal.rem ⟨DECIMAL_FRACTIONAL, true⟩ ⟨0, true⟩ = none := by
  exact ⟨fun _ _ => rfl, by decide⟩

/-- C5: division of either type by a zero-magnitude divisor returns (no
panic, no error) the canonical zero: zero magnitude with
`is_positive = true`. -/
theorem C5_div_by_zero :
    (∀ a b : SignedDecimal, b.value = 0 → SignedDecimal.div a b = some ⟨0, true⟩) ∧
    (∀ a b : SignedInt, b.value = 0 → SignedInt.div a b = ⟨0, true⟩) := by
  constructor
  · intro a b hb
    simp [SignedDecimal.div, hb]
  · intro a b hb
    simp [SignedInt.div, hb]

/-- C5 (witness): division by zero-magnitude divisors (one of them a
negative-flagged zero) at concrete inputs. -/
theorem C5_div_by_zero_w :
    SignedDecimal.div ⟨DECIMAL_FRACTIONAL, true⟩ ⟨0, true⟩ = some ⟨0, true⟩ ∧
    SignedInt.div ⟨5, false⟩ ⟨0, false⟩ = ⟨0, true⟩ :=
  ⟨C5_div_by_zero.1 ⟨DECIMAL_FRACTIONAL, true⟩ ⟨0, true⟩ rfl,
   C5_div_by_zero.2 ⟨5, false⟩ ⟨0, false⟩ rfl⟩

/-- C10: the public magnitude accessor `value()` panics (assertion failure,
modelled as `none`) exactly when `is_positive` is false — including the
`SignedInt` NaN sentinel — and returns the magnitude when `is_positive`
is true. -/
theorem C10_value_accessor :
    (∀ s : SignedInt, s.is_positive = false → SignedInt.value? s = none) ∧
    (∀ s : SignedInt, s.is_positive = true → SignedInt.value? s = some s.value) ∧
    (∀ s : SignedDecimal, s.is_positive = false → SignedDecimal.value? s = none) ∧
    (∀ s : SignedDecimal, s.is_positive = true → SignedDecimal.value? s = some s.value) ∧
    SignedInt.value? SignedInt.nan = none := by
  refine ⟨fun s h => ?_, fun s h => ?_, fun s h => ?_, fun s h => ?_, by decide⟩
  · simp [SignedInt.value?, h]
  · simp [SignedInt.value?, h]
  · simp [SignedDecimal.value?, h]
  · simp [SignedDecimal.value?, h]

/-- C10 (witness): the accessor behavior at concrete positive and negative
values of both types. -/
theorem C10_value_accessor_w :
    SignedInt.value? ⟨7, false⟩ = none ∧ SignedInt.value? ⟨7, true⟩ = some 7 ∧
    SignedDecimal.value? ⟨7, false⟩ = none ∧ SignedDecimal.value? ⟨7, true⟩ = some 7 := by
  obtain ⟨h1, h2, h3, h4, _⟩ := C10_value_accessor
  exact ⟨h1 ⟨7, false⟩ rfl, h2 ⟨7, true⟩ rfl, h3 ⟨7, false⟩ rfl, h4 ⟨7, true⟩ rfl⟩

theorem ucmp_eq_lt_iff {x y : Nat} : ucmp x y = .lt ↔ x < y := by
  unfold ucmp
  split_ifs with h1 h2 <;> simp_all

theorem ucmp_eq_eq_iff {x y : Nat} : ucmp x y = .eq ↔ x = y := by
  unfold ucmp
  split_ifs with h1 h2 <;> simp_all
  omega

theorem ucmp_eq_gt_iff {x y : Nat} : ucmp x y = .gt ↔ y < x := by
  unfold ucmp
  split_ifs with h1 h2 <;> simp_all <;> omega

/-- The `==` relation of `SignedInt`, lifted to the `Option` results of the
(possibly panicking) operators: two computations agree when both panic or
both return values the type's `PartialEq` considers equal. -/
def optEqSI (x y : Option SignedInt) : Prop :=
  match x, y with
  | some u, some v => SignedInt.beq u v = true
  | none, none => True
  | _, _ => False

/-- The `==` relation of `SignedDecimal`, lifted to `Option` results. -/
def optEqSD (x y : Option SignedDecimal) : Prop :=
  match x, y with
  | some u, some v => SignedDecimal.beq u v = true
  | none, none => True
  | _, _ => False

theorem optEqSI_refl (x : Option SignedInt) : optEqSI x x := by
  cases x with
  | none => trivial
  | some u => simp [optEqSI, SignedInt.beq]

theorem optEqSD_refl (x : Option SignedDecimal) : optEqSD x x := by
  cases x with
  | none => trivial
  | some u =>
    simp only [optEqSD, SignedDecimal.beq]
    split <;> simp_all

/-- Exactly one of three propositions holds. -/
def exactlyOne (p q r : Prop) : Prop :=
  (p ∧ ¬ q ∧ ¬ r) ∨ (¬ p ∧ q ∧ ¬ r) ∨ (¬ p ∧ ¬ q ∧ r)

theorem si_trichotomy (a b : SignedInt) :
    exactlyOne (SignedInt.pcmp a b = some .lt) (SignedInt.beq a b = true)
      (SignedInt.pcmp a b = some .gt) := by
  rcases a with ⟨av, ap⟩
  rcases b with ⟨bv, bp⟩
  cases ap <;> cases bp <;>
    simp [SignedInt.pcmp, SignedInt.beq, exactlyOne, ucmp_eq_lt_iff, ucmp_eq_eq_iff,
      ucmp_eq_gt_iff] <;>
    omega

theorem si_eq_consistent (a b : SignedInt) :
    SignedInt.beq a b = true ↔ SignedInt.pcmp a b = some .eq := by
  rcases a with ⟨av, ap⟩
  rcases b with ⟨bv, bp⟩
  cases ap <;> cases bp <;>
    simp [SignedInt.pcmp, SignedInt.beq, ucmp_eq_eq_iff]
  omega

theorem sd_trichotomy (a b : SignedDecimal) (ha : sdInv a) (hb : sdInv b) :
    exactlyOne (SignedDecimal.pcmp a b = some .lt) (SignedDecimal.beq a b = true)
      (SignedDecimal.pcmp a b = some .gt) := by
  rcases a with ⟨av, ap⟩
  rcases b with ⟨bv, bp⟩
  have ha' : av = 0 → ap = true := ha
  have hb' : bv = 0 → bp = true := hb
  cases ap <;> cases bp
  · have h1 : av ≠ 0 := fun h => by simpa using ha' h
    have h2 : bv ≠ 0 := fun h => by simpa using hb' h
    simp [SignedDecimal.pcmp, SignedDecimal.beq, exactlyOne, ucmp_eq_lt_iff,
      ucmp_eq_eq_iff, ucmp_eq_gt_iff, h1, h2]
    omega
  · have h1 : av ≠ 0 := fun h => by simpa using ha' h
    simp [SignedDecimal.pcmp, SignedDecimal.beq, exactlyOne, h1]
  · have h2 : bv ≠ 0 := fun h => by simpa using hb' h
    by_cases hz : av = 0
    · simp [SignedDecimal.pcmp, SignedDecimal.beq, exactlyOne, hz, h2]
    · simp [SignedDecimal.pcmp, SignedDecimal.beq, exactlyOne, hz]
  · by_cases hz : av = 0
    · by_cases hz2 : bv = 0
      · subst hz; subst hz2
        simp [SignedDecimal.pcmp, SignedDecimal.beq, exactlyOne, ucmp]
      · subst hz
        simp [SignedDecimal.pcmp, SignedDecimal.beq, exactlyOne, ucmp_eq_lt_iff,
          ucmp_eq_eq_iff, ucmp_eq_gt_iff, hz2]
        omega
    · simp [SignedDecimal.pcmp, SignedDecimal.beq, exactlyOne, ucmp_eq_lt_iff,
        ucmp_eq_eq_iff, ucmp_eq_gt_iff, hz]
      omega

theorem sd_eq_consistent (a b : SignedDecimal) (ha : sdInv a) (hb : sdInv b) :
    SignedDecimal.beq a b = true ↔ SignedDecimal.pcmp a b = some .eq := by
  rcases a with ⟨av, ap⟩
  rcases b with ⟨bv, bp⟩
  have ha' : av = 0 → ap = true := ha
  have hb' : bv = 0 → bp = true := hb
  cases ap <;> cases bp
  · have h1 : av ≠ 0 := fun h => by simpa using ha' h
    have h2 : bv ≠ 0 := fun h => by simpa using hb' h
    simp [SignedDecimal.pcmp, SignedDecimal.beq, ucmp_eq_eq_iff, h1]
    omega
  · have h1 : av ≠ 0 := fun h => by simpa using ha' h
    simp [SignedDecimal.pcmp, SignedDecimal.beq, h1]
  · have h2 : bv ≠ 0 := fun h => by simpa using hb' h
    by_cases hz : av = 0
    · simp [SignedDecimal.pcmp, SignedDecimal.beq, hz, h2]
    · simp [SignedDecimal.pcmp, SignedDecimal.beq, hz]
  · by_cases hz : av = 0
    · by_cases hz2 : bv = 0
      · subst hz; subst hz2
        simp [SignedDecimal.pcmp, SignedDecimal.beq, ucmp]
      · subst hz
        simp [SignedDecimal.pcmp, SignedDecimal.beq, ucmp_eq_eq_iff, hz2]
        omega
    · simp [SignedDecimal.pcmp, SignedDecimal.beq, ucmp_eq_eq_iff, hz]

/-- C6: trichotomy fails on `SignedDecimal` as stated: the positive zero
and the negative-flagged zero (reachable e.g. by parsing `"-0"`) compare
`==` (the defensive zero-equality) and simultaneously `>` (the sign-based
ordering), so two of `<`, `==`, `>` hold at once. -/
theorem C6_counterexample :
    SignedDecimal.beq ⟨0, true⟩ ⟨0, false⟩ = true ∧
    SignedDecimal.pcmp ⟨0, true⟩ ⟨0, false⟩ = some .gt := by
  constructor
  · decide
  · decide

/-- C6 (amended): for all `SignedInt` values (NaN included), and for all
`SignedDecimal` values satisfying the canonical-zero invariant, exactly one
of `a < b`, `a == b`, `a > b` holds, `==` agrees with the comparator's
`Equal`, and the comparator follows the (sign, magnitude) lexicographic
rule: equal signs compare magnitudes (reversed for negatives) and a
positive value is greater than a negative one. -/
theorem C6_amended :
    (∀ a b : SignedInt,
        exactlyOne (SignedInt.pcmp a b = some .lt) (SignedInt.beq a b = true)
          (SignedInt.pcmp a b = some .gt)) ∧
    (∀ a b : SignedInt, SignedInt.beq a b = true ↔ SignedInt.pcmp a b = some .eq) ∧
    (∀ a b : SignedDecimal, sdInv a → sdInv b →
        exactlyOne (SignedDecimal.pcmp a b = some .lt) (SignedDecimal.beq a b = true)
          (SignedDecimal.pcmp a b = some .gt)) ∧
    (∀ a b : SignedDecimal, sdInv a → sdInv b →
        (SignedDecimal.beq a b = true ↔ SignedDecimal.pcmp a b = some .eq)) ∧
    (∀ a b : SignedInt, a.is_positive = true → b.is_positive = false →
        SignedInt.pcmp a b = some .gt) ∧
    (∀ a b : SignedInt, a.is_positive = false → b.is_positive = true →
        SignedInt.pcmp a b = some .lt) ∧
    (∀ a b : SignedInt, a.is_positive = true → b.is_positive = true →
        SignedInt.pcmp a b = some (ucmp a.value b.value)) ∧
    (∀ a b : SignedInt, a.is_positive = false → b.is_positive = false →
        SignedInt.pcmp a b = some (ucmp b.value a.value)) ∧
    (∀ a b : SignedDecimal, a.is_positive = true → b.is_positive = false →
        SignedDecimal.pcmp a b = some .gt) ∧
    (∀ a b : SignedDecimal, a.is_positive = false → b.is_positive = true →
        SignedDecimal.pcmp a b = some .lt) ∧
    (∀ a b : SignedDecimal, a.is_positive = true → b.is_positive = true →
        SignedDecimal.pcmp a b = some (ucmp a.value b.value)) ∧
    (∀ a b : SignedDecimal, a.is_positive = false → b.is_positive = false →
        SignedDecimal.pcmp a b = some (ucmp b.value a.value)) := by
  refine ⟨si_trichotomy, si_eq_consistent, sd_trichotomy, sd_eq_consistent,
    ?_, ?_, ?_, ?_, ?_, ?_, ?_, ?_⟩ <;>
    intro a b h1 h2 <;> simp [SignedInt.pcmp, SignedDecimal.pcmp, h1, h2]

/-- C6 (witness): the amended ordering theorem applied at concrete values,
among them the `SignedInt` NaN sentinel. -/
theorem C6_amended_w :
    exactlyOne (SignedInt.pcmp ⟨0, true⟩ SignedInt.nan = some .lt)
      (SignedInt.beq ⟨0, true⟩ SignedInt.nan = true)
      (SignedInt.pcmp ⟨0, true⟩ SignedInt.nan = some .gt) ∧
    exactlyOne (SignedDecimal.pcmp ⟨3, false⟩ ⟨5, false⟩ = some .lt)
      (SignedDecimal.beq ⟨3, false⟩ ⟨5, false⟩ = true)
      (SignedDecimal.pcmp ⟨3, false⟩ ⟨5, false⟩ = some .gt) ∧
    (SignedDecimal.beq ⟨4, true⟩ ⟨4, true⟩ = true ↔
      SignedDecimal.pcmp ⟨4, true⟩ ⟨4, true⟩ = some .eq) := by
  obtain ⟨h1, _, h3, h4, _⟩ := C6_amended
  exact ⟨h1 ⟨0, true⟩ SignedInt.nan,
         h3 ⟨3, false⟩ ⟨5, false⟩ (by decide) (by decide),
         h4 ⟨4, true⟩ ⟨4, true⟩ (by decide) (by decide)⟩

/-- C7: as stated, the identity fails on `SignedInt` at `a = NaN`,
`b = 0`: `a - b` is NaN while `a + (-b)` is the canonical zero, and the
type's `==` distinguishes them. -/
theorem C7_counterexample :
    SignedInt.sub ⟨0, false⟩ ⟨0, true⟩ = some ⟨0, false⟩ ∧
    SignedInt.add ⟨0, false⟩ (SignedInt.neg ⟨0, true⟩) = some ⟨0, true⟩ ∧
    SignedInt.beq ⟨0, false⟩ ⟨0, true⟩ = false := by
  refine ⟨?_, ?_, ?_⟩ <;> decide

/-- C7 (amended): `a - b` and `a + (-b)` agree under the type's own `==`
(panicking together on overflow) for every representable `SignedDecimal`
pair, and for every representable `SignedInt` pair whose left operand
satisfies the canonical-zero invariant (the NaN left operand is the
exception). -/
theorem C7_amended :
    (∀ a b : SignedDecimal, a.value < U256MOD →
        optEqSD (SignedDecimal.sub a b) (SignedDecimal.add a (SignedDecimal.neg b))) ∧
    (∀ a b : SignedInt, siInv a → a.value < U256MOD →
        optEqSI (SignedInt.sub a b) (SignedInt.add a (SignedInt.neg b))) := by
  constructor
  · intro a b hbound
    by_cases hbz : b.value = 0
    · rcases a with ⟨av, ap⟩
      rcases b with ⟨bv, bp⟩
      simp only at hbz hbound
      subst hbz
      cases ap <;> cases bp <;>
        by_cases hz : av = 0 <;>
        simp_all [SignedDecimal.sub, SignedDecimal.add, SignedDecimal.neg, uAdd,
          optEqSD, SignedDecimal.beq, Nat.pos_iff_ne_zero]
    · have : SignedDecimal.neg b = ⟨b.value, !b.is_positive⟩ := by
        simp [SignedDecimal.neg, hbz]
      rw [this]
      exact optEqSD_refl _
  · intro a b ha hbound
    by_cases hbz : b.value = 0
    · rcases a with ⟨av, ap⟩
      rcases b with ⟨bv, bp⟩
      have ha' : av = 0 → ap = true := ha
      simp only at hbz hbound
      subst hbz
      cases ap <;> cases bp <;>
        by_cases hz : av = 0 <;>
        simp_all [SignedInt.sub, SignedInt.add, SignedInt.neg, uAdd,
          optEqSI, SignedInt.beq, Nat.pos_iff_ne_zero]
    · have : SignedInt.neg b = ⟨b.value, !b.is_positive⟩ := by
        simp [SignedInt.neg, hbz]
      rw [this]
      exact optEqSI_refl _

/-- C7 (witness): the amended identity at concrete inputs of both types. -/
theorem C7_amended_w :
    optEqSD (SignedDecimal.sub ⟨DECIMAL_FRACTIONAL, true⟩ ⟨DECIMAL_FRACTIONAL, false⟩)
      (SignedDecimal.add ⟨DECIMAL_FRACTIONAL, true⟩
        (SignedDecimal.neg ⟨DECIMAL_FRACTIONAL, false⟩)) ∧
    optEqSI (SignedInt.sub ⟨5, true⟩ ⟨3, true⟩)
      (SignedInt.add ⟨5, true⟩ (SignedInt.neg ⟨3, true⟩)) :=
  ⟨C7_amended.1 ⟨DECIMAL_FRACTIONAL, true⟩ ⟨DECIMAL_FRACTIONAL, false⟩ (by decide),
   C7_amended.2 ⟨5, true⟩ ⟨3, true⟩ (by decide) (by decide)⟩

/-- C8: as stated, the claim fails at the `SignedInt` NaN sentinel (the
zero-magnitude, negative-flagged value): `NaN + (-NaN)` is again NaN, not
the canonical positive zero. -/
theorem C8_counterexample :
    SignedInt.add SignedInt.nan (SignedInt.neg SignedInt.nan) = some ⟨0, false⟩ ∧
    (⟨0, false⟩ : SignedInt) ≠ ⟨0, true⟩ := by
  constructor
  · decide
  · decide

/-- C8 (amended): for every value satisfying the canonical-zero invariant
(i.e. every value except the NaN sentinel / negative-flagged zero),
`a + (-a)` and `(-a) + a` are exactly the canonical zero. -/
theorem C8_amended :
    (∀ a : SignedInt, siInv a →
        SignedInt.add a (SignedInt.neg a) = some ⟨0, true⟩ ∧
        SignedInt.add (SignedInt.neg a) a = some ⟨0, true⟩) ∧
    (∀ a : SignedDecimal, sdInv a →
        SignedDecimal.add a (SignedDecimal.neg a) = some ⟨0, true⟩ ∧
        SignedDecimal.add (SignedDecimal.neg a) a = some ⟨0, true⟩) := by
  constructor
  · intro a ha
    rcases a with ⟨av, ap⟩
    have ha' : av = 0 → ap = true := ha
    by_cases hz : av = 0
    · subst hz
      have hp : ap = true := ha' rfl
      subst hp
      constructor <;> decide
    · constructor <;>
        simp [SignedInt.neg, SignedInt.add, uAdd, hz]
  · intro a ha
    rcases a with ⟨av, ap⟩
    have ha' : av = 0 → ap = true := ha
    by_cases hz : av = 0
    · subst hz
      have hp : ap = true := ha' rfl
      subst hp
      constructor <;> decide
    · constructor <;>
        simp [SignedDecimal.neg, SignedDecimal.add, uAdd, hz]

/-- C8 (witness): the amended cancellation law at concrete nonzero and zero
inputs. -/
theorem C8_amended_w :
    (SignedInt.add ⟨9, false⟩ (SignedInt.neg ⟨9, false⟩) = some ⟨0, true⟩ ∧
     SignedInt.add (SignedInt.neg ⟨9, false⟩) ⟨9, false⟩ = some ⟨0, true⟩) ∧
    (SignedDecimal.add ⟨0, true⟩ (SignedDecimal.neg ⟨0, true⟩) = some ⟨0, true⟩ ∧
     SignedDecimal.add (SignedDecimal.neg ⟨0, true⟩) ⟨0, true⟩ = some ⟨0, true⟩) :=
  ⟨C8_amended.1 ⟨9, false⟩ (by decide), C8_amended.2 ⟨0, true⟩ (by decide)⟩

/-- An ASCII decimal digit (`'0'`..`'9'`). -/
def isDigitCh (c : Char) : Bool := 48 ≤ c.toNat && c.toNat ≤ 57

/-- One step of big-endian decimal accumulation. -/
def digitStep (a : Nat) (c : Char) : Nat := a * 10 + (c.toNat - 48)

/-- Numeric value of a big-endian decimal digit string. -/
def digitsVal (l : List Char) : Nat := l.foldl digitStep 0

/-- Decimal rendering of a `Nat`, most significant digit first.  The first
argument is recursion fuel: one unit per digit, so any fuel at least the
digit count (`n < 10 ^ fuel`) is exact. -/
def toCharsAux : Nat → Nat → List Char
  | 0, _ => []
  | fuel + 1, n =>
    if n = 0 then [] else toCharsAux fuel (n / 10) ++ [Char.ofNat (n % 10 + 48)]

/-- `Uint256` `Display`: the plain decimal digit string (`"0"` for zero).
100 digits of fuel cover every 256-bit magnitude. -/
def natToChars (n : Nat) : List Char :=
  if n = 0 then ['0'] else toCharsAux 100 n

/-- Rust unsigned integer parsing accepts one optional leading `'+'`. -/
def stripPlus (l : List Char) : List Char :=
  match l with
  | c :: rest => if c = '+' then rest else l
  | [] => []

/-- `Uint256::from_str` (`FromStr`, via `from_str_radix(s, 10)`): rejects
the empty string, requires decimal digits after an optional `'+'`, and
fails on 256-bit overflow. -/
def parseUint256 (s : List Char) : Option Nat :=
  if s = [] then none
  else
    let t := stripPlus s
    if t = [] then none
    else if t.all isDigitCh then
      if digitsVal t < U256MOD then some (digitsVal t) else none
    else none

/-- `str::split('.')`: always at least one part; an empty input yields one
empty part. -/
def splitOnDot : List Char → List (List Char)
  | [] => [[]]
  | c :: rest =>
    if c = '.' then [] :: splitOnDot rest
    else
      match splitOnDot rest with
      | [] => [[c]]
      | h :: t => (c :: h) :: t

/-- `Decimal256::from_str` applied to the dot-separated parts: a whole part
(checked-multiplied by `10^18`), an optional fractional part of at most 18
digits (scaled by `10^(18 - len)` and checked-added), and an error on any
further dot. -/
def Decimal256.fromParts : List (List Char) → Option Nat
  | [whole] =>
    match parseUint256 whole with
    | none => none
    | some w =>
      if w * DECIMAL_FRACTIONAL < U256MOD then some (w * DECIMAL_FRACTIONAL)
      else none
  | [whole, fracPart] =>
    match parseUint256 whole with
    | none => none
    | some w =>
      if w * DECIMAL_FRACTIONAL < U256MOD then
        match parseUint256 fracPart with
        | none => none
        | some f =>
          if fracPart.length ≤ 18 then
            if f * 10 ^ (18 - fracPart.length) < U256MOD then
              if w * DECIMAL_FRACTIONAL + f * 10 ^ (18 - fracPart.length) < U256MOD then
                some (w * DECIMAL_FRACTIONAL + f * 10 ^ (18 - fracPart.length))
              else none
            else none
          else none
      else none
  | _ => none

/-- `Decimal256::from_str`, returning the atomics on success. -/
def Decimal256.fromStr (s : List Char) : Option Nat :=
  Decimal256.fromParts (splitOnDot s)

/-- `trim_end_matches('0')`. -/
def trimZeros (l : List Char) : List Char :=
  (l.reverse.dropWhile fun c => c == '0').reverse

/-- `Decimal256` `Display`: the whole part, and — when the fractional part
is nonzero — a dot followed by the fractional atomics left-padded to 18
digits with trailing zeros trimmed. -/
def Decimal256.toChars (a : Nat) : List Char :=
  let whole := a / DECIMAL_FRACTIONAL
  let frac := a % DECIMAL_FRACTIONAL
  if frac = 0 then natToChars whole
  else
    natToChars whole ++ '.' ::
      trimZeros (List.replicate (18 - (natToChars frac).length) '0' ++ natToChars frac)

/-- Outcome of a fallible Rust function: a panic, an `Err`, or an `Ok`
value. -/
inductive PResult (α : Type) where
  | panicked : PResult α
  | error : PResult α
  | ok : α → PResult α
deriving DecidableEq, Repr

/-- `impl FromStr for SignedDecimal`: `chars.next().unwrap()` panics on an
empty input; a leading `'-'` is consumed as the sign, any other first
character leaves the whole string to the magnitude parser. -/
def SignedDecimal.fromStr : List Char → PResult SignedDecimal
  | [] => .panicked
  | c :: rest =>
    match Decimal256.fromStr (if c = '-' then rest else c :: rest) with
    | some value => .ok ⟨value, !(c == '-')⟩
    | none => .error

/-- `impl FromStr for SignedInt`. -/
def SignedInt.fromStr : List Char → PResult SignedInt
  | [] => .panicked
  | c :: rest =>
    match parseUint256 (if c = '-' then rest else c :: rest) with
    | some value => .ok ⟨value, !(c == '-')⟩
    | none => .error

/-- `impl ToString for SignedDecimal`: zero renders `"0.0"`, otherwise an
optional `-` and the magnitude's decimal rendering. -/
def SignedDecimal.toString (v : SignedDecimal) : List Char :=
  if v.value = 0 then ['0', '.', '0']
  else (if v.is_positive then [] else ['-']) ++ Decimal256.toChars v.value

/-- `impl ToString for SignedInt`: the NaN sentinel renders `"NaN"`,
otherwise an optional `-` and the magnitude's digits. -/
def SignedInt.toString (v : SignedInt) : List Char :=
  if v.is_nan then ['N', 'a', 'N']
  else (if v.is_positive then [] else ['-']) ++ natToChars v.value

/-- The mathematical value of a `SignedDecimal`, counted in atomics. -/
def sdVal (v : SignedDecimal) : Int :=
  if v.is_positive then (v.value : Int) else -(v.value : Int)

/-- The mathematical value of a `SignedInt`. -/
def siVal (v : SignedInt) : Int :=
  if v.is_positive then (v.value : Int) else -(v.value : Int)

theorem digitsVal_from (l : List Char) :
    ∀ a : Nat, l.foldl digitStep a = a * 10 ^ l.length + digitsVal l := by
  induction l with
  | nil => intro a; simp [digitsVal]
  | cons c t ih =>
    intro a
    simp only [digitsVal, List.foldl_cons, List.length_cons]
    rw [ih (digitStep a c), ih (digitStep 0 c)]
    simp only [digitStep]
    ring

theorem digitsVal_append (l1 l2 : List Char) :
    digitsVal (l1 ++ l2) = digitsVal l1 * 10 ^ l2.length + digitsVal l2 := by
  simp only [digitsVal, List.foldl_append]
  exact digitsVal_from l2 (List.foldl digitStep 0 l1)

theorem digitsVal_replicate_zero (k : Nat) :
    digitsVal (List.replicate k '0') = 0 := by
  induction k with
  | zero => rfl
  | succ n ih =>
    simp only [List.replicate_succ, digitsVal, List.foldl_cons]
    have : digitStep 0 '0' = 0 := by decide
    rw [this]
    exact ih

theorem toNat_ofNat_digit {d : Nat} (h : d < 10) :
    (Char.ofNat (d + 48)).toNat = d + 48 := by
  interval_cases d <;> decide

theorem isDigitCh_ofNat_digit {d : Nat} (h : d < 10) :
    isDigitCh (Char.ofNat (d + 48)) = true := by
  interval_cases d <;> decide

theorem toCharsAux_digits :
    ∀ fuel n : Nat, ∀ c ∈ toCharsAux fuel n, isDigitCh c = true := by
  intro fuel
  induction fuel with
  | zero => intro n c hc; simp [toCharsAux] at hc
  | succ f ih =>
    intro n c hc
    simp only [toCharsAux] at hc
    split at hc
    · simp at hc
    · rw [List.mem_append] at hc
      rcases hc with h | h
      · exact ih _ c h
      · simp only [List.mem_singleton] at h
        subst h
        exact isDigitCh_ofNat_digit (Nat.mod_lt _ (by norm_num))

theorem toCharsAux_val :
    ∀ fuel n : Nat, n < 10 ^ fuel → digitsVal (toCharsAux fuel n) = n := by
  intro fuel
  induction fuel with
  | zero =>
    intro n h
    simp only [pow_zero, Nat.lt_one_iff] at h
    subst h
    rfl
  | succ f ih =>
    intro n h
    by_cases hn : n = 0
    · subst hn; simp [toCharsAux, digitsVal]
    · rw [show toCharsAux (f + 1) n
          = toCharsAux f (n / 10) ++ [Char.ofNat (n % 10 + 48)] from by
        simp [toCharsAux, hn]]
      rw [digitsVal_append]
      have hd : n / 10 < 10 ^ f := by
        rw [pow_succ] at h
        omega
      rw [ih (n / 10) hd]
      have hm : (Char.ofNat (n % 10 + 48)).toNat = n % 10 + 48 :=
        toNat_ofNat_digit (Nat.mod_lt _ (by norm_num))
      simp only [digitsVal, List.foldl_cons, List.foldl_nil, digitStep,
        List.length_singleton, pow_one, Nat.zero_mul, Nat.zero_add, hm]
      omega

theorem toCharsAux_len :
    ∀ fuel n e : Nat, n < 10 ^ e → (toCharsAux fuel n).length ≤ e := by
  intro fuel
  induction fuel with
  | zero => intro n e _; simp [toCharsAux]
  | succ f ih =>
    intro n e h
    by_cases hn : n = 0
    · subst hn; simp [toCharsAux]
    · have he : e ≠ 0 := by
        rintro rfl
        simp only [pow_zero, Nat.lt_one_iff] at h
        exact hn h
      obtain ⟨e', rfl⟩ : ∃ e', e = e' + 1 := ⟨e - 1, by omega⟩
      have hd : n / 10 < 10 ^ e' := by
        rw [pow_succ] at h
        omega
      have := ih (n / 10) e' hd
      simp only [toCharsAux, hn, if_false, List.length_append,
        List.length_singleton]
      omega

theorem natToChars_val {n : Nat} (h : n < 10 ^ 100) :
    digitsVal (natToChars n) = n := by
  unfold natToChars
  by_cases hn : n = 0
  · subst hn; rfl
  · rw [if_neg hn]
    exact toCharsAux_val 100 n h

theorem natToChars_digits (n : Nat) : ∀ c ∈ natToChars n, isDigitCh c = true := by
  intro c hc
  unfold natToChars at hc
  split at hc
  · simp only [List.mem_singleton] at hc
    subst hc
    decide
  · exact toCharsAux_digits 100 n c hc

theorem toCharsAux_ne_nil {f n : Nat} (hn : n ≠ 0) : toCharsAux (f + 1) n ≠ [] := by
  simp [toCharsAux, hn]

theorem natToChars_ne_nil (n : Nat) : natToChars n ≠ [] := by
  unfold natToChars
  split
  · simp
  · exact toCharsAux_ne_nil (by assumption)

theorem natToChars_len {n e : Nat} (h : n < 10 ^ e) (he : 1 ≤ e) :
    (natToChars n).length ≤ e := by
  unfold natToChars
  split
  · simpa using he
  · exact toCharsAux_len 100 n e h

theorem isDigitCh_ne_dot {c : Char} (h : isDigitCh c = true) : c ≠ '.' := by
  intro hc
  subst hc
  exact absurd h (by decide)

theorem isDigitCh_ne_minus {c : Char} (h : isDigitCh c = true) : c ≠ '-' := by
  intro hc
  subst hc
  exact absurd h (by decide)

theorem isDigitCh_ne_plus {c : Char} (h : isDigitCh c = true) : c ≠ '+' := by
  intro hc
  subst hc
  exact absurd h (by decide)

theorem stripPlus_digits {l : List Char} (h : ∀ c ∈ l, isDigitCh c = true) :
    stripPlus l = l := by
  cases l with
  | nil => rfl
  | cons c rest =>
    have hc : c ≠ '+' := isDigitCh_ne_plus (h c (by simp))
    simp [stripPlus, hc]

theorem parseUint256_digits {l : List Char} (hne : l ≠ [])
    (hd : ∀ c ∈ l, isDigitCh c = true) (hb : digitsVal l < U256MOD) :
    parseUint256 l = some (digitsVal l) := by
  unfold parseUint256
  rw [if_neg hne]
  simp only [stripPlus_digits hd]
  rw [if_neg hne, if_pos (List.all_eq_true.mpr hd), if_pos hb]

theorem parseUint256_bound {l : List Char} {v : Nat}
    (h : parseUint256 l = some v) : v < U256MOD := by
  unfold parseUint256 at h
  split at h
  · exact absurd h (by simp)
  · simp only at h
    split at h
    · exact absurd h (by simp)
    · split at h
      · split at h
        · cases h
          assumption
        · exact absurd h (by simp)
      · exact absurd h (by simp)

theorem splitOnDot_no_dot :
    ∀ l : List Char, (∀ c ∈ l, c ≠ '.') → splitOnDot l = [l] := by
  intro l
  induction l with
  | nil => intro _; rfl
  | cons c rest ih =>
    intro h
    have hc : c ≠ '.' := h c (by simp)
    simp only [splitOnDot, if_neg hc]
    rw [ih (fun x hx => h x (by simp [hx]))]

theorem splitOnDot_append :
    ∀ (l1 l2 : List Char), (∀ c ∈ l1, c ≠ '.') →
    splitOnDot (l1 ++ '.' :: l2) = l1 :: splitOnDot l2 := by
  intro l1
  induction l1 with
  | nil =>
    intro l2 _
    simp [splitOnDot]
  | cons c rest ih =>
    intro l2 h
    have hc : c ≠ '.' := h c (by simp)
    simp only [List.cons_append, splitOnDot, if_neg hc, List.append_eq]
    rw [ih l2 (fun x hx => h x (by simp [hx]))]

theorem trimZeros_decomp (l : List Char) :
    ∃ k, l = trimZeros l ++ List.replicate k '0' := by
  refine ⟨(l.reverse.takeWhile fun c => c == '0').length, ?_⟩
  have hsplit :
      (l.reverse.takeWhile fun c => c == '0') ++
        (l.reverse.dropWhile fun c => c == '0') = l.reverse :=
    List.takeWhile_append_dropWhile _ _
  have hrep : (l.reverse.takeWhile fun c => c == '0')
      = List.replicate (l.reverse.takeWhile fun c => c == '0').length '0' := by
    apply List.eq_replicate_of_mem
    intro b hb
    have := List.mem_takeWhile_imp hb
    exact eq_of_beq this
  conv_lhs => rw [← l.reverse_reverse, ← hsplit]
  rw [List.reverse_append]
  unfold trimZeros
  congr 1
  rw [hrep, List.reverse_replicate, List.length_replicate]

theorem trimZeros_mem {l : List Char} {c : Char} (h : c ∈ trimZeros l) :
    c ∈ l := by
  unfold trimZeros at h
  rw [List.mem_reverse] at h
  have hsub : (l.reverse.dropWhile fun c => c == '0').Sublist l.reverse :=
    List.dropWhile_sublist _
  rw [← List.mem_reverse]
  exact hsub.mem h

theorem digitsVal_trim (l : List Char) :
    ∃ k, l = trimZeros l ++ List.replicate k '0' ∧
      digitsVal l = digitsVal (trimZeros l) * 10 ^ k ∧
      l.length = (trimZeros l).length + k := by
  obtain ⟨k, hk⟩ := trimZeros_decomp l
  refine ⟨k, hk, ?_, ?_⟩
  · conv_lhs => rw [hk]
    rw [digitsVal_append, digitsVal_replicate_zero, List.length_replicate]
    omega
  · conv_lhs => rw [hk]
    simp

theorem trimZeros_ne_nil {l : List Char} (h : digitsVal l ≠ 0) :
    trimZeros l ≠ [] := by
  intro hnil
  obtain ⟨k, _, hv, _⟩ := digitsVal_trim l
  rw [hnil] at hv
  simp [digitsVal] at hv
  exact h hv

theorem digitsVal_lt (l : List Char) (hd : ∀ c ∈ l, isDigitCh c = true) :
    digitsVal l < 10 ^ l.length := by
  induction l with
  | nil => simp [digitsVal]
  | cons c t ih =>
    have hc : c.toNat - 48 ≤ 9 := by
      have := hd c (by simp)
      simp only [isDigitCh, Bool.and_eq_true, decide_eq_true_eq] at this
      omega
    have ht := ih (fun x hx => hd x (by simp [hx]))
    simp only [digitsVal, List.foldl_cons, List.length_cons]
    rw [digitsVal_from]
    have hX : 0 < 10 ^ t.length := Nat.pos_pow_of_pos _ (by norm_num)
    have h1 : digitStep 0 c * 10 ^ t.length ≤ 9 * 10 ^ t.length := by
      apply Nat.mul_le_mul_right
      simp [digitStep]
      omega
    have h2 : (9 : Nat) * 10 ^ t.length + 10 ^ t.length = 10 ^ (t.length + 1) := by
      rw [pow_succ]
      ring
    have := ht
    simp only [digitsVal] at this
    omega

theorem U256MOD_lt_pow100 : U256MOD < 10 ^ 100 := by decide

theorem parseUint256_natToChars {n : Nat} (h : n < U256MOD) :
    parseUint256 (natToChars n) = some n := by
  have h100 : n < 10 ^ 100 := lt_trans h U256MOD_lt_pow100
  have hv := natToChars_val h100
  rw [parseUint256_digits (natToChars_ne_nil n) (natToChars_digits n)
    (by rw [hv]; exact h), hv]

theorem fromParts_bound :
    ∀ {parts : List (List Char)} {a : Nat},
      Decimal256.fromParts parts = some a → a < U256MOD := by
  intro parts a h
  unfold Decimal256.fromParts at h
  split at h
  · split at h
    · exact absurd h (by simp)
    · split at h
      · cases h
        assumption
      · exact absurd h (by simp)
  · split at h
    · exact absurd h (by simp)
    · split at h
      · split at h
        · exact absurd h (by simp)
        · split at h
          · split at h
            · split at h
              · cases h
                assumption
              · exact absurd h (by simp)
            · exact absurd h (by simp)
          · exact absurd h (by simp)
      · exact absurd h (by simp)
  · exact absurd h (by simp)

theorem Decimal256.fromStr_bound {s : List Char} {a : Nat}
    (h : Decimal256.fromStr s = some a) : a < U256MOD :=
  fromParts_bound h

theorem DECIMAL_FRACTIONAL_lt : DECIMAL_FRACTIONAL < U256MOD := by decide

theorem fromParts_single (whole : List Char) :
    Decimal256.fromParts [whole]
      = match parseUint256 whole with
        | none => none
        | some w =>
          if w * DECIMAL_FRACTIONAL < U256MOD then some (w * DECIMAL_FRACTIONAL)
          else none := rfl

theorem fromParts_pair (whole fracPart : List Char) :
    Decimal256.fromParts [whole, fracPart]
      = match parseUint256 whole with
        | none => none
        | some w =>
          if w * DECIMAL_FRACTIONAL < U256MOD then
            match parseUint256 fracPart with
            | none => none
            | some f =>
              if fracPart.length ≤ 18 then
                if f * 10 ^ (18 - fracPart.length) < U256MOD then
                  if w * DECIMAL_FRACTIONAL + f * 10 ^ (18 - fracPart.length) < U256MOD then
                    some (w * DECIMAL_FRACTIONAL + f * 10 ^ (18 - fracPart.length))
                  else none
                else none
              else none
          else none := rfl

theorem decimal_roundtrip {a : Nat} (h : a < U256MOD) :
    Decimal256.fromStr (Decimal256.toChars a) = some a := by
  have hD : 0 < DECIMAL_FRACTIONAL := by norm_num [DECIMAL_FRACTIONAL]
  have hwf : a / DECIMAL_FRACTIONAL * DECIMAL_FRACTIONAL + a % DECIMAL_FRACTIONAL = a :=
    Nat.div_add_mod' a DECIMAL_FRACTIONAL
  have hfb : a % DECIMAL_FRACTIONAL < DECIMAL_FRACTIONAL := Nat.mod_lt _ hD
  have hwb : a / DECIMAL_FRACTIONAL < U256MOD :=
    lt_of_le_of_lt (Nat.div_le_self a _) h
  have hwD : a / DECIMAL_FRACTIONAL * DECIMAL_FRACTIONAL < U256MOD := by omega
  have hnodot : ∀ c ∈ natToChars (a / DECIMAL_FRACTIONAL), c ≠ '.' :=
    fun c hc => isDigitCh_ne_dot (natToChars_digits _ c hc)
  by_cases hfz : a % DECIMAL_FRACTIONAL = 0
  · rw [show Decimal256.toChars a = natToChars (a / DECIMAL_FRACTIONAL) from by
      simp [Decimal256.toChars, hfz]]
    unfold Decimal256.fromStr
    rw [splitOnDot_no_dot _ hnodot, fromParts_single]
    simp only [parseUint256_natToChars hwb, if_pos hwD]
    rw [show a / DECIMAL_FRACTIONAL * DECIMAL_FRACTIONAL = a from by omega]
  · have hlenf : (natToChars (a % DECIMAL_FRACTIONAL)).length ≤ 18 :=
      natToChars_len (show a % DECIMAL_FRACTIONAL < 10 ^ 18 from hfb) (by norm_num)
    set P := List.replicate (18 - (natToChars (a % DECIMAL_FRACTIONAL)).length) '0' ++
      natToChars (a % DECIMAL_FRACTIONAL) with hP
    have hPlen : P.length = 18 := by
      rw [hP]
      simp only [List.length_append, List.length_replicate]
      omega
    have hPdig : ∀ c ∈ P, isDigitCh c = true := by
      intro c hc
      rw [hP, List.mem_append] at hc
      rcases hc with hm | hm
      · rw [List.eq_of_mem_replicate hm]
        decide
      · exact natToChars_digits _ c hm
    have hPval : digitsVal P = a % DECIMAL_FRACTIONAL := by
      rw [hP, digitsVal_append, digitsVal_replicate_zero]
      rw [natToChars_val (lt_trans (lt_trans hfb DECIMAL_FRACTIONAL_lt) U256MOD_lt_pow100)]
      omega
    obtain ⟨k, hdecomp, hval, hlen2⟩ := digitsVal_trim P
    set F := trimZeros P with hF
    have hFne : F ≠ [] := trimZeros_ne_nil (by rw [hPval]; exact hfz)
    have hFdig : ∀ c ∈ F, isDigitCh c = true := fun c hc => hPdig c (trimZeros_mem hc)
    have hFlen : F.length ≤ 18 := by omega
    have hkval : k = 18 - F.length := by omega
    have hFval : digitsVal F * 10 ^ (18 - F.length) = a % DECIMAL_FRACTIONAL := by
      rw [← hkval, ← hval, hPval]
    have hFb : digitsVal F < U256MOD := by
      have h1 : 0 < 10 ^ (18 - F.length) := Nat.pos_pow_of_pos _ (by norm_num)
      have h2 : digitsVal F ≤ digitsVal F * 10 ^ (18 - F.length) :=
        Nat.le_mul_of_pos_right _ h1
      have h3 : a % DECIMAL_FRACTIONAL < U256MOD := lt_trans hfb DECIMAL_FRACTIONAL_lt
      omega
    rw [show Decimal256.toChars a
        = natToChars (a / DECIMAL_FRACTIONAL) ++ '.' :: F from by
      rw [hF, hP]
      simp [Decimal256.toChars, hfz]]
    unfold Decimal256.fromStr
    rw [splitOnDot_append _ _ hnodot,
      splitOnDot_no_dot F (fun c hc => isDigitCh_ne_dot (hFdig c hc)),
      fromParts_pair]
    simp only [parseUint256_natToChars hwb, if_pos hwD,
      parseUint256_digits hFne hFdig hFb, if_pos hFlen,
      if_pos (hFval ▸ lt_trans hfb DECIMAL_FRACTIONAL_lt),
      if_pos (show a / DECIMAL_FRACTIONAL * DECIMAL_FRACTIONAL
          + digitsVal F * 10 ^ (18 - F.length) < U256MOD by omega)]
    rw [show a / DECIMAL_FRACTIONAL * DECIMAL_FRACTIONAL
        + digitsVal F * 10 ^ (18 - F.length) = a from by omega]

theorem toChars_head (a : Nat) :
    ∃ c rest, Decimal256.toChars a = c :: rest ∧ isDigitCh c = true := by
  obtain ⟨c, cs, hc⟩ :=
    List.exists_cons_of_ne_nil (natToChars_ne_nil (a / DECIMAL_FRACTIONAL))
  have hcd : isDigitCh c = true := natToChars_digits _ c (by rw [hc]; simp)
  by_cases hfz : a % DECIMAL_FRACTIONAL = 0
  · exact ⟨c, cs, by simp only [Decimal256.toChars, if_pos hfz]; exact hc, hcd⟩
  · refine ⟨c, cs ++ '.' :: trimZeros
      (List.replicate (18 - (natToChars (a % DECIMAL_FRACTIONAL)).length) '0' ++
        natToChars (a % DECIMAL_FRACTIONAL)), ?_, hcd⟩
    rw [show Decimal256.toChars a
        = natToChars (a / DECIMAL_FRACTIONAL) ++ '.' :: trimZeros
          (List.replicate (18 - (natToChars (a % DECIMAL_FRACTIONAL)).length) '0' ++
            natToChars (a % DECIMAL_FRACTIONAL)) from by
      simp [Decimal256.toChars, hfz]]
    rw [hc, List.cons_append]

theorem sd_roundtrip (s : List Char) (v : SignedDecimal)
    (hv : SignedDecimal.fromStr s = .ok v) :
    ∃ w, SignedDecimal.fromStr (SignedDecimal.toString v) = .ok w ∧
      sdVal w = sdVal v := by
  have hb : v.value < U256MOD := by
    cases s with
    | nil => exact absurd hv (by simp [SignedDecimal.fromStr])
    | cons c rest =>
      simp only [SignedDecimal.fromStr] at hv
      rcases hd : Decimal256.fromStr (if c = '-' then rest else c :: rest) with _ | x
      · rw [hd] at hv
        exact absurd hv (by simp)
      · rw [hd] at hv
        simp only at hv
        cases hv
        exact Decimal256.fromStr_bound hd
  by_cases hz : v.value = 0
  · refine ⟨⟨0, true⟩, ?_, ?_⟩
    · rw [show SignedDecimal.toString v = ['0', '.', '0'] from by
        simp [SignedDecimal.toString, hz]]
      decide
    · rcases v with ⟨vv, vp⟩
      simp only at hz
      subst hz
      cases vp <;> simp [sdVal]
  · obtain ⟨c, rest, hcr, hcd⟩ := toChars_head v.value
    have hcm : c ≠ '-' := isDigitCh_ne_minus hcd
    have hrt := decimal_roundtrip hb
    cases hvp : v.is_positive
    · refine ⟨⟨v.value, false⟩, ?_, ?_⟩
      · rw [show SignedDecimal.toString v = '-' :: Decimal256.toChars v.value from by
          simp [SignedDecimal.toString, hz, hvp]]
        simp [SignedDecimal.fromStr, hrt]
      · simp [sdVal, hvp]
    · refine ⟨⟨v.value, true⟩, ?_, ?_⟩
      · rw [show SignedDecimal.toString v = Decimal256.toChars v.value from by
          simp [SignedDecimal.toString, hz, hvp]]
        rw [hcr]
        have hrt' : Decimal256.fromStr (c :: rest) = some v.value := by
          rw [← hcr]
          exact hrt
        simp [SignedDecimal.fromStr, hcm, hrt']
      · simp [sdVal, hvp]

theorem si_roundtrip (s : List Char) (v : SignedInt)
    (hv : SignedInt.fromStr s = .ok v) (hnan : v.is_nan = false) :
    ∃ w, SignedInt.fromStr (SignedInt.toString v) = .ok w ∧ siVal w = siVal v := by
  have hb : v.value < U256MOD := by
    cases s with
    | nil => exact absurd hv (by simp [SignedInt.fromStr])
    | cons c rest =>
      simp only [SignedInt.fromStr] at hv
      rcases hd : parseUint256 (if c = '-' then rest else c :: rest) with _ | x
      · rw [hd] at hv
        exact absurd hv (by simp)
      · rw [hd] at hv
        simp only at hv
        cases hv
        exact parseUint256_bound hd
  cases hvp : v.is_positive
  · have hz : v.value ≠ 0 := by
      intro h0
      rw [SignedInt.is_nan, h0, hvp] at hnan
      simp at hnan
    refine ⟨⟨v.value, false⟩, ?_, ?_⟩
    · rw [show SignedInt.toString v = '-' :: natToChars v.value from by
        simp [SignedInt.toString, SignedInt.is_nan, hvp, hz]]
      simp [SignedInt.fromStr, parseUint256_natToChars hb]
    · simp [siVal, hvp]
  · obtain ⟨c, rest, hcr⟩ := List.exists_cons_of_ne_nil (natToChars_ne_nil v.value)
    have hcd := natToChars_digits v.value c (by rw [hcr]; simp)
    have hcm : c ≠ '-' := isDigitCh_ne_minus hcd
    refine ⟨⟨v.value, true⟩, ?_, ?_⟩
    · rw [show SignedInt.toString v = natToChars v.value from by
        simp [SignedInt.toString, SignedInt.is_nan, hvp]]
      rw [hcr]
      have hp' : parseUint256 (c :: rest) = some v.value := by
        rw [← hcr]
        exact parseUint256_natToChars hb
      simp [SignedInt.fromStr, hcm, hp']
    · simp [siVal, hvp]

/-- C2: evaluation of the parsers at the failing input: `from_str` of
either type begins with `chars.next().unwrap()`, which panics on the empty
string instead of returning an `Err`. -/
theorem C2_empty_string_panics :
    SignedDecimal.fromStr [] = .panicked ∧ SignedInt.fromStr [] = .panicked :=
  ⟨rfl, rfl⟩

/-- C9: the claim's concrete example fails: `from_str("-50.50")` parses to
magnitude `50.5` in atomics, but `to_string` renders `"-50.5"` — the
underlying decimal display trims the trailing zero — which is not the
string `"-50.50"` (the mathematical value is preserved). -/
theorem C9_counterexample :
    SignedDecimal.fromStr "-50.50".toList = .ok ⟨50500000000000000000, false⟩ ∧
    SignedDecimal.toString ⟨50500000000000000000, false⟩ = "-50.5".toList ∧
    "-50.5".toList ≠ "-50.50".toList := by
  refine ⟨?_, ?_, ?_⟩ <;> decide

/-- C9 (amended): re-parsing `to_string(from_str(s))` yields the same
mathematical value as `from_str(s)` for every accepted `SignedDecimal`
string, and for every accepted `SignedInt` string not parsing to the NaN
sentinel; `"-0"` parses to the `SignedInt` NaN sentinel and renders
`"NaN"`, and `from_str("-50.50").to_string()` is `"-50.5"` (equal in value,
not textually). -/
theorem C9_amended :
    (∀ (s : List Char) (v : SignedDecimal), SignedDecimal.fromStr s = .ok v →
      ∃ w, SignedDecimal.fromStr (SignedDecimal.toString v) = .ok w ∧
        sdVal w = sdVal v) ∧
    (∀ (s : List Char) (v : SignedInt), SignedInt.fromStr s = .ok v →
      v.is_nan = false →
      ∃ w, SignedInt.fromStr (SignedInt.toString v) = .ok w ∧
        siVal w = siVal v) ∧
    (SignedDecimal.fromStr "-50.50".toList = .ok ⟨50500000000000000000, false⟩ ∧
      SignedDecimal.toString ⟨50500000000000000000, false⟩ = "-50.5".toList) ∧
    (SignedInt.fromStr "-0".toList = .ok ⟨0, false⟩ ∧
      SignedInt.toString ⟨0, false⟩ = "NaN".toList) :=
  ⟨sd_roundtrip, si_roundtrip, ⟨by decide, by decide⟩, ⟨by decide, by decide⟩⟩

/-- C9 (witness): the amended round-trip theorem applied to the concrete
strings `"-50.50"` (decimal) and `"-50"` (integer). -/
theorem C9_amended_w :
    (∃ w, SignedDecimal.fromStr
        (SignedDecimal.toString ⟨50500000000000000000, false⟩) = .ok w ∧
      sdVal w = sdVal ⟨50500000000000000000, false⟩) ∧
    (∃ w, SignedInt.fromStr (SignedInt.toString ⟨50, false⟩) = .ok w ∧
      siVal w = siVal ⟨50, false⟩) :=
  ⟨C9_amended.1 "-50.50".toList ⟨50500000000000000000, false⟩ (by decide),
   C9_amended.2.1 "-50".toList ⟨50, false⟩ (by decide) (by decide)⟩
